import Mathlib

/-!
Shallow embedding of the Fortuna CSPRNG implementation from `src/index.ts`
of the repository.  Node `Buffer`s are modelled as lists of natural numbers
(bytes), JavaScript numbers appearing as byte counts, bounds or timestamps
are modelled as `Int` (restricted to integers, which is the only case the
claims quantify over), and the external cryptographic primitives (SHA-256,
single-block AES-256-ECB) together with the wall clock (`Date.now()`) are
modelled as explicit function parameters `hashFn`, `enc` and `clock`.
Fallible operations return `Except Err`; the rejection-sampling loop of
`generateInt32`, which the source runs without a bound, takes an explicit
`fuel` argument and reports exhaustion as the distinguished value
`Err.outOfFuel` (never produced by the modelled program on the inputs the
theorems consider).  Successive `Date.now()` readings are modelled by a
clock stream `clock : Nat → Int` together with a reading index that each
call threads through.
-/

namespace Fortuna

/-- Byte contents of a Node `Buffer`. -/
abbrev Bytes := List Nat

/-- `KEY_SIZE_BYTES` from the source: AES-256 key size in bytes. -/
def KEY_SIZE_BYTES : Nat := 32

/-- `BLOCK_SIZE_BYTES` from the source: AES block size in bytes. -/
def BLOCK_SIZE_BYTES : Nat := 16

/-- `MAX_GENERATE_BYTES` from the source: `1 << 20` bytes (1 MiB) per request. -/
def MAX_GENERATE_BYTES : Int := 1048576

/-- `NUM_POOLS` from the source. -/
def NUM_POOLS : Nat := 32

/-- `RESEED_INTERVAL_MS` from the source: minimum time between reseeds. -/
def RESEED_INTERVAL_MS : Int := 100

/-- `POOL_SIZE` from the source: minimum pool-0 size gating a reseed. -/
def POOL_SIZE : Nat := 64

/-- `RESERVED_POOL_ID4` from the source: source id used by the self-feeding
event added between chunks of a large `randomData` request. -/
def RESERVED_POOL_ID4 : Int := 255

/-- `UINT32_MAX_COUNT` from the source: `0x100000000`, the number of
possible uint32 values. -/
def UINT32_MAX_COUNT : Int := 4294967296

/-- The mutable fields of the `FortunaRNG` class. -/
structure FState where
  generatorKey : Bytes
  generatorCounter : Bytes
  pools : List Bytes
  reseedCount : Nat
  lastReseedTime : Int
  minPoolSize : Nat
  seeded : Bool
deriving DecidableEq

/-- Error taxonomy of the implementation; the source throws `Error`s whose
messages distinguish exactly these situations. -/
inductive Err where
  | invalidArgument
  | notSeeded
  | internalError
  | outOfFuel
deriving DecidableEq

/-- SHA-256 as an external capability (`hash` in the source). -/
abbrev HashFn := Bytes → Bytes

/-- Single-block AES-256-ECB encryption as an external capability:
arguments are the key and the block (`blockEncrypt`'s cipher call). -/
abbrev EncFn := Bytes → Bytes → Bytes

/-- Stream of successive `Date.now()` readings. -/
abbrev Clock := Nat → Int

/-- One step of the loop body of `incrementCounter`, acting on the byte
list reversed so that the least significant (last) byte comes first:
a byte below 255 is incremented and the loop stops, a byte of 255 is
zeroed and the carry moves on. -/
def incLE : Bytes → Bytes
  | [] => []
  | b :: rest => if b < 255 then (b + 1) :: rest else 0 :: incLE rest

/-- `incrementCounter` from the source: big-endian increment with
byte-wise carry starting from the least significant byte. -/
def incBE (l : Bytes) : Bytes := (incLE l.reverse).reverse

/-- Little-endian numeric value of a byte list. -/
def leVal : Bytes → Nat
  | [] => 0
  | b :: rest => b + 256 * leVal rest

/-- Big-endian numeric value of a byte list (the value a 16-byte counter
buffer denotes). -/
def beVal (l : Bytes) : Nat := leVal l.reverse

/-- `blockEncrypt` from the source: guards, then encrypts the current
counter under the current key, checking the primitive's output size. -/
def blockEncrypt (enc : EncFn) (s : FState) : Except Err Bytes :=
  if s.seeded = false ∧ s.reseedCount = 0 then .error .notSeeded
  else if s.generatorKey.length ≠ KEY_SIZE_BYTES then .error .internalError
  else
    let e := enc s.generatorKey s.generatorCounter
    if e.length ≠ BLOCK_SIZE_BYTES then .error .internalError
    else .ok e

/-- The `for` loop of `generateBlocks`: each iteration encrypts the current
counter and then increments it. -/
def genBlocksLoop (enc : EncFn) : Nat → FState → Except Err (Bytes × FState)
  | 0, s => .ok ([], s)
  | k + 1, s =>
    match blockEncrypt enc s with
    | .error e => .error e
    | .ok b =>
      match genBlocksLoop enc k { s with generatorCounter := incBE s.generatorCounter } with
      | .error e => .error e
      | .ok (rest, s2) => .ok (b ++ rest, s2)

/-- `generateBlocks` from the source. -/
def generateBlocks (enc : EncFn) (k : Nat) (s : FState) : Except Err (Bytes × FState) :=
  if s.seeded = false then .error .notSeeded
  else if k = 0 then .ok ([], s)
  else genBlocksLoop enc k s

/-- `Math.ceil (n / BLOCK_SIZE_BYTES)` for a positive byte count `n`
(the `blocksNeeded` computation of `pseudoRandomData`). -/
def ceil16 (n : Int) : Nat := (n.toNat + BLOCK_SIZE_BYTES - 1) / BLOCK_SIZE_BYTES

/-- `pseudoRandomData` from the source: bounds check, `ceil(n/16)` output
blocks, two further blocks that replace the key, and truncation to `n`
bytes. -/
def pseudoRandomData (enc : EncFn) (n : Int) (s : FState) : Except Err (Bytes × FState) :=
  if n < 0 ∨ n > MAX_GENERATE_BYTES then .error .invalidArgument
  else if n = 0 then .ok ([], s)
  else
    match generateBlocks enc (ceil16 n) s with
    | .error e => .error e
    | .ok (generatedData, s1) =>
      match generateBlocks enc 2 s1 with
      | .error e => .error e
      | .ok (newKeyData, s2) =>
        if newKeyData.length ≠ KEY_SIZE_BYTES then .error .internalError
        else .ok (generatedData.take n.toNat, { s2 with generatorKey := newKeyData })

/-- `reseed` from the source: `K ← SHA-256(K ‖ s)`, counter increment,
seeded flag, reseed-count increment. -/
def reseed (hashFn : HashFn) (seedData : Bytes) (s : FState) : FState :=
  { s with
    generatorKey := hashFn (s.generatorKey ++ seedData),
    generatorCounter := incBE s.generatorCounter,
    seeded := true,
    reseedCount := s.reseedCount + 1 }

/-- The pool-collection loop inside `randomData`: `i` is the index of the
first pool of the remaining list; a pool with `reseedCount % 2^i = 0` is
hashed into the seed material and reset, any other pool is kept. -/
def poolStep (hashFn : HashFn) (rc : Nat) : Nat → List Bytes → Bytes × List Bytes
  | _, [] => ([], [])
  | i, p :: rest =>
    let r := poolStep hashFn rc (i + 1) rest
    if rc % 2 ^ i = 0 then (hashFn p ++ r.1, [] :: r.2)
    else (r.1, p :: r.2)

/-- The check-and-maybe-reseed step at the top of `randomData`: when pool 0
is full enough and the reseed interval has elapsed, collect the eligible
pools' hashes, reseed, and record `now` as the last-reseed time. -/
def reseedStep (hashFn : HashFn) (now : Int) (s : FState) : FState :=
  if (s.pools.getD 0 []).length ≥ s.minPoolSize ∧ now - s.lastReseedTime ≥ RESEED_INTERVAL_MS then
    let r := poolStep hashFn s.reseedCount 0 s.pools
    let s1 := reseed hashFn r.1 { s with pools := r.2 }
    { s1 with lastReseedTime := now }
  else s

/-- `seedFromData` from the source: requires exactly 64 bytes, reseeds,
marks seeded, and records the current time. -/
def seedFromData (hashFn : HashFn) (now : Int) (seedData : Bytes) (s : FState) :
    Except Err FState :=
  if seedData.length ≠ 64 then .error .invalidArgument
  else
    let s1 := reseed hashFn seedData s
    .ok { s1 with seeded := true, lastReseedTime := now }

/-- The state the constructor builds before calling `seedFromData`. -/
def initState : FState :=
  { generatorKey := List.replicate KEY_SIZE_BYTES 0,
    generatorCounter := List.replicate BLOCK_SIZE_BYTES 0,
    pools := List.replicate NUM_POOLS [],
    reseedCount := 0,
    lastReseedTime := 0,
    minPoolSize := POOL_SIZE,
    seeded := false }

/-- The constructor of `FortunaRNG`: uses the caller's seed when one is
supplied and otherwise the strong random bytes drawn by
`crypto.randomBytes(64)`, which are passed here as the explicit parameter
`randBytes`.  The timer-driven background entropy events the constructor
also schedules act later through `addRandomEvent` and are outside this
state-transformer model. -/
def constructFortuna (hashFn : HashFn) (now : Int) (seedArg : Option Bytes)
    (randBytes : Bytes) : Except Err FState :=
  seedFromData hashFn now (seedArg.getD randBytes) initState

/-- `addRandomEvent` from the source.  `sourceId` and `poolId` are modelled
as `Int` (the claims quantify over integers, making the source's
`Number.isInteger` guards vacuous here). -/
def addRandomEvent (sourceId poolId : Int) (eventData : Bytes) (s : FState) :
    Except Err FState :=
  if sourceId < 0 ∨ sourceId > 255 then .error .invalidArgument
  else if poolId < 0 ∨ poolId ≥ (NUM_POOLS : Int) then .error .invalidArgument
  else if eventData.length < 1 ∨ eventData.length > 32 then .error .invalidArgument
  else
    let encodedEvent := sourceId.toNat :: eventData.length :: eventData
    .ok { s with
      pools := s.pools.set poolId.toNat ((s.pools.getD poolId.toNat []) ++ encodedEvent) }

/-- `buffer.readUInt32BE(0)` on a 4-byte buffer. -/
def readUInt32BE (l : Bytes) : Nat :=
  l.getD 0 0 * 16777216 + l.getD 1 0 * 65536 + l.getD 2 0 * 256 + l.getD 3 0

/-- The `n ≤ MAX_GENERATE_BYTES` path of `randomData` (the recursive calls
`randomData(4)` issued by `getRaw32` always take this path): reseed check,
seeded check, then `pseudoRandomData`.  Consumes one clock reading. -/
def randomDataBase (hashFn : HashFn) (enc : EncFn) (clock : Clock) (n : Int) (t : Nat)
    (s : FState) : Except Err (Bytes × FState × Nat) :=
  let s1 := reseedStep hashFn (clock t) s
  if s1.seeded = false then .error .notSeeded
  else
    match pseudoRandomData enc n s1 with
    | .error e => .error e
    | .ok (out, s2) => .ok (out, s2, t + 1)

/-- `getRaw32` from the source: 4 bytes from `randomData` read big-endian. -/
def getRaw32 (hashFn : HashFn) (enc : EncFn) (clock : Clock) (t : Nat) (s : FState) :
    Except Err (Nat × FState × Nat) :=
  match randomDataBase hashFn enc clock 4 t s with
  | .error e => .error e
  | .ok (buf, s1, t1) => .ok (readUInt32BE buf, s1, t1)

/-- The `do … while (rnd >= limit)` rejection loop of `generateInt32`,
with explicit fuel. -/
def rejLoop (hashFn : HashFn) (enc : EncFn) (clock : Clock) :
    Nat → Int → Nat → FState → Except Err (Nat × FState × Nat)
  | 0, _, _, _ => .error .outOfFuel
  | fuel + 1, limit, t, s =>
    match getRaw32 hashFn enc clock t s with
    | .error e => .error e
    | .ok (rnd, s1, t1) =>
      if (rnd : Int) ≥ limit then rejLoop hashFn enc clock fuel limit t1 s1
      else .ok (rnd, s1, t1)

/-- `generateInt32` from the source (`mn`, `mx` are the source's `min`,
`max`; both are modelled as integers, making `Number.isInteger` vacuous). -/
def generateInt32 (hashFn : HashFn) (enc : EncFn) (clock : Clock) (fuel : Nat)
    (mn mx : Int) (t : Nat) (s : FState) : Except Err (Int × FState × Nat) :=
  if mn > mx then .error .invalidArgument
  else if mn = mx then .ok (mn, s, t)
  else
    let range := mx - mn + 1
    let limit := UINT32_MAX_COUNT - UINT32_MAX_COUNT % range
    match rejLoop hashFn enc clock fuel limit t s with
    | .error e => .error e
    | .ok (rnd, s1, t1) => .ok ((rnd : Int) % range + mn, s1, t1)

/-- The `while (remaining > 0)` loop of `randomData` for requests above the
per-call cap: each iteration produces one capped chunk and then feeds a
fresh 32-byte slice of generator output back into a random pool. -/
def chunkLoop (hashFn : HashFn) (enc : EncFn) (clock : Clock) (fuel : Nat) :
    Nat → Nat → FState → Except Err (Bytes × FState × Nat)
  | 0, t, s => .ok ([], s, t)
  | rem + 1, t, s =>
    let chunkSize := min (rem + 1) MAX_GENERATE_BYTES.toNat
    match pseudoRandomData enc (chunkSize : Int) s with
    | .error e => .error e
    | .ok (chunk, s1) =>
      match generateInt32 hashFn enc clock fuel 0 31 t s1 with
      | .error e => .error e
      | .ok (pid, s2, t2) =>
        match pseudoRandomData enc 32 s2 with
        | .error e => .error e
        | .ok (d32, s3) =>
          match addRandomEvent RESERVED_POOL_ID4 pid d32 s3 with
          | .error e => .error e
          | .ok s4 =>
            match chunkLoop hashFn enc clock fuel (rem + 1 - chunkSize) t2 s4 with
            | .error e => .error e
            | .ok (restOut, s5, t5) => .ok (chunk ++ restOut, s5, t5)
termination_by rem => rem
decreasing_by
  have h1 : 1 ≤ min (rem + 1) MAX_GENERATE_BYTES.toNat :=
    le_min (Nat.succ_le_succ (Nat.zero_le rem)) (by decide)
  omega

/-- `randomData` from the source: reseed check, seeded check, then either a
single `pseudoRandomData` call (requests up to the cap, negative requests
included) or the chunked loop. -/
def randomData (hashFn : HashFn) (enc : EncFn) (clock : Clock) (fuel : Nat) (n : Int)
    (t : Nat) (s : FState) : Except Err (Bytes × FState × Nat) :=
  let s1 := reseedStep hashFn (clock t) s
  if s1.seeded = false then .error .notSeeded
  else if n ≤ MAX_GENERATE_BYTES then
    match pseudoRandomData enc n s1 with
    | .error e => .error e
    | .ok (out, s2) => .ok (out, s2, t + 1)
  else chunkLoop hashFn enc clock fuel n.toNat (t + 1) s1

/-- The `for` loop inside `generateInt32Batch` (the voluntary `sleep`
yields have no effect on state or values and are not modelled). -/
def batchLoop (hashFn : HashFn) (enc : EncFn) (clock : Clock) (fuel : Nat) (mn mx : Int) :
    Nat → Nat → FState → Except Err (List Int × FState × Nat)
  | 0, t, s => .ok ([], s, t)
  | k + 1, t, s =>
    match generateInt32 hashFn enc clock fuel mn mx t s with
    | .error e => .error e
    | .ok (v, s1, t1) =>
      match batchLoop hashFn enc clock fuel mn mx k t1 s1 with
      | .error e => .error e
      | .ok (rest, s2, t2) => .ok (v :: rest, s2, t2)

/-- `generateInt32Batch` from the source (the mutex only serializes
concurrent callers and is invisible to this sequential model). -/
def generateInt32Batch (hashFn : HashFn) (enc : EncFn) (clock : Clock) (fuel : Nat)
    (count mn mx : Int) (t : Nat) (s : FState) : Except Err (List Int × FState × Nat) :=
  if count < 0 then .error .invalidArgument
  else if count = 0 then .ok ([], s, t)
  else if mn > mx then .error .invalidArgument
  else if mn = mx then .ok (List.replicate count.toNat mn, s, t)
  else batchLoop hashFn enc clock fuel mn mx count.toNat t s

/-- Concrete stand-in for the hash primitive, used to instantiate theorems
at concrete inputs. -/
def hash0 : HashFn := fun _ => List.replicate 32 0

/-- Concrete stand-in for the block cipher, used to instantiate theorems
at concrete inputs. -/
def enc0 : EncFn := fun _ _ => List.replicate 16 0

/-- Concrete constant clock, used to instantiate theorems at concrete
inputs. -/
def clock0 : Clock := fun _ => 0

/-- The state `constructFortuna hash0 0 none (List.replicate 64 0)`
produces, written out. -/
def sCon : FState :=
  { generatorKey := List.replicate 32 0,
    generatorCounter := List.replicate 15 0 ++ [1],
    pools := List.replicate 32 [],
    reseedCount := 1,
    lastReseedTime := 0,
    minPoolSize := 64,
    seeded := true }

/-- The state `generateInt32 hash0 enc0 clock0 1 0 2 0 sCon` leaves behind
(three counter increments from `sCon`, key replaced by 32 zero bytes),
written out. -/
def sAfterC2 : FState :=
  { generatorKey := List.replicate 32 0,
    generatorCounter := List.replicate 15 0 ++ [4],
    pools := List.replicate 32 [],
    reseedCount := 1,
    lastReseedTime := 0,
    minPoolSize := 64,
    seeded := true }

/-! Helper lemmas about the byte-wise counter increment. -/

theorem incLE_length (l : Bytes) : (incLE l).length = l.length := by
  induction l with
  | nil => rfl
  | cons b rest ih => by_cases h : b < 255 <;> simp [incLE, h, ih]

theorem incLE_bytes (l : Bytes) (h : ∀ b ∈ l, b < 256) : ∀ b ∈ incLE l, b < 256 := by
  induction l with
  | nil => simp [incLE]
  | cons b rest ih =>
    intro x hx
    by_cases hb : b < 255
    · simp only [incLE, if_pos hb, List.mem_cons] at hx
      rcases hx with hx | hx
      · have := h b (by simp)
        omega
      · exact h x (by simp [hx])
    · simp only [incLE, if_neg hb, List.mem_cons] at hx
      rcases hx with hx | hx
      · omega
      · exact ih (fun y hy => h y (by simp [hy])) x hx

theorem leVal_lt (l : Bytes) (h : ∀ b ∈ l, b < 256) : leVal l < 256 ^ l.length := by
  induction l with
  | nil => simp [leVal]
  | cons b rest ih =>
    have hb := h b (by simp)
    have hr := ih (fun y hy => h y (by simp [hy]))
    simp only [leVal, List.length_cons, pow_succ]
    generalize leVal rest = r at hr ⊢
    generalize (256 : Nat) ^ rest.length = p at hr ⊢
    omega

theorem incLE_leVal (l : Bytes) (h : ∀ b ∈ l, b < 256) :
    leVal (incLE l) = (leVal l + 1) % 256 ^ l.length := by
  induction l with
  | nil => simp [incLE, leVal]
  | cons b rest ih =>
    have hb := h b (by simp)
    have hrest : ∀ y ∈ rest, y < 256 := fun y hy => h y (by simp [hy])
    have hr := leVal_lt rest hrest
    by_cases hlt : b < 255
    · simp only [incLE, if_pos hlt, leVal, List.length_cons, pow_succ]
      rw [Nat.mod_eq_of_lt]
      · omega
      · generalize leVal rest = r at hr ⊢
        generalize (256 : Nat) ^ rest.length = p at hr ⊢
        omega
    · have hb255 : b = 255 := by omega
      subst hb255
      simp only [incLE, if_neg hlt, leVal, List.length_cons, pow_succ]
      rw [ih hrest]
      have h2 : 255 + 256 * leVal rest + 1 = 256 * (leVal rest + 1) := by ring
      rw [h2, mul_comm ((256 : Nat) ^ rest.length) 256, Nat.mul_mod_mul_left]
      omega

theorem incBE_length (l : Bytes) : (incBE l).length = l.length := by
  simp [incBE, incLE_length]

theorem incBE_bytes (l : Bytes) (h : ∀ b ∈ l, b < 256) : ∀ b ∈ incBE l, b < 256 := by
  intro x hx
  simp only [incBE, List.mem_reverse] at hx
  exact incLE_bytes l.reverse (fun y hy => h y (List.mem_reverse.mp hy)) x hx

theorem incBE_beVal (l : Bytes) (h : ∀ b ∈ l, b < 256) :
    beVal (incBE l) = (beVal l + 1) % 256 ^ l.length := by
  unfold beVal incBE
  rw [List.reverse_reverse,
    incLE_leVal l.reverse (fun y hy => h y (List.mem_reverse.mp hy)),
    List.length_reverse]

theorem beVal_lt (l : Bytes) (h : ∀ b ∈ l, b < 256) : beVal l < 256 ^ l.length := by
  unfold beVal
  rw [← List.length_reverse l]
  exact leVal_lt l.reverse (fun y hy => h y (List.mem_reverse.mp hy))

/-- C6: `incrementCounter` performs a pure big-endian increment with
byte-wise carry on the 16-byte counter, mapping counter value `v` to
`(v + 1) mod 2^128` (so no counter value is ever skipped), and
incrementing the all-`0xFF` counter wraps to all zero bytes. -/
theorem claim6_incrementCounter (l : Bytes) (h1 : l.length = 16)
    (h2 : ∀ b ∈ l, b < 256) :
    beVal (incBE l) = (beVal l + 1) % 2 ^ 128 ∧
    incBE (List.replicate 16 255) = List.replicate 16 0 := by
  constructor
  · have h256 : (256 : Nat) ^ 16 = 2 ^ 128 := by norm_num
    have := incBE_beVal l h2
    rw [h1, h256] at this
    exact this
  · rfl

theorem claim6_witness :
    beVal (incBE (List.replicate 16 0)) = (beVal (List.replicate 16 0) + 1) % 2 ^ 128 ∧
    incBE (List.replicate 16 255) = List.replicate 16 0 :=
  claim6_incrementCounter (List.replicate 16 0) (by decide) (by decide)

/-- C5: for every seed material `s`, `reseed` sets
`key = SHA-256(key ‖ seedMaterial)`, advances the 128-bit counter by
exactly one unit, marks `seeded = true`, increments the reseed count, and
never resets the counter to zero (the successor value is taken, which is
nonzero except at the 2^128 wrap forced by the `+1 mod 2^128` semantics). -/
theorem claim5_reseed (hashFn : HashFn) (seedData : Bytes) (s : FState)
    (h1 : s.generatorCounter.length = 16) (h2 : ∀ b ∈ s.generatorCounter, b < 256) :
    (reseed hashFn seedData s).generatorKey = hashFn (s.generatorKey ++ seedData) ∧
    beVal (reseed hashFn seedData s).generatorCounter
      = (beVal s.generatorCounter + 1) % 2 ^ 128 ∧
    (reseed hashFn seedData s).seeded = true ∧
    (reseed hashFn seedData s).reseedCount = s.reseedCount + 1 ∧
    (beVal s.generatorCounter ≠ 2 ^ 128 - 1 →
      beVal (reseed hashFn seedData s).generatorCounter ≠ 0) := by
  have h256 : (256 : Nat) ^ 16 = 2 ^ 128 := by norm_num
  have hv := incBE_beVal s.generatorCounter h2
  rw [h1, h256] at hv
  have hlt := beVal_lt s.generatorCounter h2
  rw [h1, h256] at hlt
  refine ⟨rfl, ?_, rfl, rfl, ?_⟩
  · simpa [reseed] using hv
  · intro hne
    simp only [reseed] at hv ⊢
    rw [hv, Nat.mod_eq_of_lt (by omega)]
    omega

theorem claim5_witness :
    (reseed hash0 [1, 2] sCon).generatorKey = hash0 (sCon.generatorKey ++ [1, 2]) ∧
    beVal (reseed hash0 [1, 2] sCon).generatorCounter
      = (beVal sCon.generatorCounter + 1) % 2 ^ 128 ∧
    (reseed hash0 [1, 2] sCon).seeded = true ∧
    (reseed hash0 [1, 2] sCon).reseedCount = sCon.reseedCount + 1 ∧
    (beVal sCon.generatorCounter ≠ 2 ^ 128 - 1 →
      beVal (reseed hash0 [1, 2] sCon).generatorCounter ≠ 0) :=
  claim5_reseed hash0 [1, 2] sCon (by decide) (by decide)

/-! Helper lemmas about `List.set` and `List.getD`. -/

theorem getD_set_self (l : List Bytes) (i : Nat) (a : Bytes) (h : i < l.length) :
    (l.set i a).getD i [] = a := by
  induction l generalizing i with
  | nil => simp at h
  | cons x xs ih =>
    cases i with
    | zero => rfl
    | succ j => exact ih j (by simpa using h)

theorem getD_set_other (l : List Bytes) (i j : Nat) (a : Bytes) (h : j ≠ i) :
    (l.set i a).getD j [] = l.getD j [] := by
  induction l generalizing i j with
  | nil => rfl
  | cons x xs ih =>
    cases i with
    | zero =>
      cases j with
      | zero => exact absurd rfl h
      | succ m => rfl
    | succ k =>
      cases j with
      | zero => rfl
      | succ m => exact ih k m (by omega)

/-- C7: with `min == max`, `generateInt32` returns `min` and
`generateInt32Batch` returns `count` copies of `min`, and neither mutates
any generator state (the very same state record, hence the same key,
counter, pools, seeded flag, reseed count and last-reseed time, is
returned, and no clock reading is consumed). -/
theorem claim7_minEqMax (hashFn : HashFn) (enc : EncFn) (clock : Clock) (fuel : Nat)
    (count mn mx : Int) (t : Nat) (s : FState) (h : mn = mx) (hc : 0 ≤ count) :
    generateInt32 hashFn enc clock fuel mn mx t s = .ok (mn, s, t) ∧
    generateInt32Batch hashFn enc clock fuel count mn mx t s
      = .ok (List.replicate count.toNat mn, s, t) := by
  subst h
  constructor
  · simp [generateInt32]
  · by_cases h0 : count = 0
    · simp [generateInt32Batch, h0]
    · simp [generateInt32Batch, h0, not_lt.mpr hc]

theorem claim7_witness :
    generateInt32 hash0 enc0 clock0 1 5 5 0 sCon = .ok (5, sCon, 0) ∧
    generateInt32Batch hash0 enc0 clock0 1 3 5 5 0 sCon
      = .ok (List.replicate (3 : Int).toNat 5, sCon, 0) :=
  claim7_minEqMax hash0 enc0 clock0 1 3 5 5 0 sCon rfl (by decide)

/-- C8: `addRandomEvent` fails with `InvalidArgument` exactly when
`sourceId` is outside `0..255`, `poolId` is outside `0..31`, or the event
data length is outside `1..32`; on success it appends exactly
`[sourceId, length, data…]` to pool `poolId` and leaves every other pool
and all other generator state unchanged. -/
theorem claim8_addRandomEvent (sourceId poolId : Int) (eventData : Bytes) (s : FState)
    (hp : s.pools.length = 32) :
    (addRandomEvent sourceId poolId eventData s = .error .invalidArgument ↔
      (sourceId < 0 ∨ sourceId > 255 ∨ poolId < 0 ∨ poolId ≥ 32 ∨
        eventData.length < 1 ∨ eventData.length > 32)) ∧
    (¬ (sourceId < 0 ∨ sourceId > 255 ∨ poolId < 0 ∨ poolId ≥ 32 ∨
        eventData.length < 1 ∨ eventData.length > 32) →
      ∃ s', addRandomEvent sourceId poolId eventData s = .ok s' ∧
        s'.pools.getD poolId.toNat []
          = s.pools.getD poolId.toNat [] ++ sourceId.toNat :: eventData.length :: eventData ∧
        (∀ j, j ≠ poolId.toNat → s'.pools.getD j [] = s.pools.getD j []) ∧
        s'.generatorKey = s.generatorKey ∧
        s'.generatorCounter = s.generatorCounter ∧
        s'.seeded = s.seeded ∧
        s'.reseedCount = s.reseedCount ∧
        s'.lastReseedTime = s.lastReseedTime) := by
  have hNP : ((NUM_POOLS : Nat) : Int) = 32 := by norm_num [NUM_POOLS]
  by_cases h1 : sourceId < 0 ∨ sourceId > 255
  · have hd : sourceId < 0 ∨ sourceId > 255 ∨ poolId < 0 ∨ poolId ≥ 32 ∨
        eventData.length < 1 ∨ eventData.length > 32 :=
      h1.elim Or.inl (fun h => Or.inr (Or.inl h))
    exact ⟨⟨fun _ => hd, fun _ => by simp [addRandomEvent, h1]⟩, fun hv => absurd hd hv⟩
  · by_cases h2 : poolId < 0 ∨ poolId ≥ (NUM_POOLS : Int)
    · have h2' : poolId < 0 ∨ poolId ≥ 32 := by
        rw [hNP] at h2
        exact h2
      have hd : sourceId < 0 ∨ sourceId > 255 ∨ poolId < 0 ∨ poolId ≥ 32 ∨
          eventData.length < 1 ∨ eventData.length > 32 :=
        Or.inr (Or.inr (h2'.elim Or.inl (fun h => Or.inr (Or.inl h))))
      exact ⟨⟨fun _ => hd, fun _ => by simp [addRandomEvent, h1, h2]⟩, fun hv => absurd hd hv⟩
    · have h2' : ¬ (poolId < 0 ∨ poolId ≥ 32) := by
        rw [hNP] at h2
        exact h2
      by_cases h3 : eventData.length < 1 ∨ eventData.length > 32
      · have hd : sourceId < 0 ∨ sourceId > 255 ∨ poolId < 0 ∨ poolId ≥ 32 ∨
            eventData.length < 1 ∨ eventData.length > 32 :=
          Or.inr (Or.inr (Or.inr (Or.inr h3)))
        exact ⟨⟨fun _ => hd,
            fun _ => by simp only [addRandomEvent, if_neg h1, if_neg h2, if_pos h3]⟩,
          fun hv => absurd hd hv⟩
      · constructor
        · simp only [addRandomEvent, if_neg h1, if_neg h2, if_neg h3]
          constructor
          · intro h
            exact absurd h (by simp)
          · intro h
            rcases h with h | h | h | h | h | h
            · exact absurd (Or.inl h) h1
            · exact absurd (Or.inr h) h1
            · exact absurd (Or.inl h) h2'
            · exact absurd (Or.inr h) h2'
            · exact absurd (Or.inl h) h3
            · exact absurd (Or.inr h) h3
        · intro _
          have hpid : poolId.toNat < s.pools.length := by
            rw [hp]
            omega
          refine ⟨{ s with pools := s.pools.set poolId.toNat ((s.pools.getD poolId.toNat []) ++ sourceId.toNat :: eventData.length :: eventData) }, ?_, ?_, ?_, rfl, rfl, rfl, rfl, rfl⟩
          · simp only [addRandomEvent, if_neg h1, if_neg h2, if_neg h3]
          · exact getD_set_self _ _ _ hpid
          · intro j hj
            exact getD_set_other _ _ _ _ hj

theorem claim8_witness :
    (addRandomEvent 7 3 [9, 9] sCon = .error .invalidArgument ↔
      ((7 : Int) < 0 ∨ (7 : Int) > 255 ∨ (3 : Int) < 0 ∨ (3 : Int) ≥ 32 ∨
        ([9, 9] : Bytes).length < 1 ∨ ([9, 9] : Bytes).length > 32)) ∧
    (¬ ((7 : Int) < 0 ∨ (7 : Int) > 255 ∨ (3 : Int) < 0 ∨ (3 : Int) ≥ 32 ∨
        ([9, 9] : Bytes).length < 1 ∨ ([9, 9] : Bytes).length > 32) →
      ∃ s', addRandomEvent 7 3 [9, 9] sCon = .ok s' ∧
        s'.pools.getD (3 : Int).toNat []
          = sCon.pools.getD (3 : Int).toNat []
              ++ (7 : Int).toNat :: ([9, 9] : Bytes).length :: [9, 9] ∧
        (∀ j, j ≠ (3 : Int).toNat → s'.pools.getD j [] = sCon.pools.getD j []) ∧
        s'.generatorKey = sCon.generatorKey ∧
        s'.generatorCounter = sCon.generatorCounter ∧
        s'.seeded = sCon.seeded ∧
        s'.reseedCount = sCon.reseedCount ∧
        s'.lastReseedTime = sCon.lastReseedTime) :=
  claim8_addRandomEvent 7 3 [9, 9] sCon (by decide)

/-! Helper lemmas about the pool-collection loop. -/

theorem poolStep_snd_getD (hashFn : HashFn) (rc : Nat) :
    ∀ (ps : List Bytes) (i j : Nat),
      ((poolStep hashFn rc i ps).2).getD j []
        = if rc % 2 ^ (i + j) = 0 then [] else ps.getD j [] := by
  intro ps
  induction ps with
  | nil =>
    intro i j
    simp [poolStep, ite_self]
  | cons p rest ih =>
    intro i j
    cases j with
    | zero =>
      by_cases h : rc % 2 ^ i = 0 <;> simp [poolStep, h]
    | succ m =>
      have hexp : i + (m + 1) = (i + 1) + m := by omega
      by_cases h : rc % 2 ^ i = 0
      · simp only [poolStep, if_pos h, List.getD_cons_succ, hexp]
        exact ih (i + 1) m
      · simp only [poolStep, if_neg h, List.getD_cons_succ, hexp]
        exact ih (i + 1) m

theorem poolStep_fst (hashFn : HashFn) (rc : Nat) :
    ∀ (ps : List Bytes) (i : Nat),
      (poolStep hashFn rc i ps).1
        = List.flatten (List.map
            (fun j => if rc % 2 ^ (i + j) = 0 then hashFn (ps.getD j []) else [])
            (List.range ps.length)) := by
  intro ps
  induction ps with
  | nil =>
    intro i
    simp [poolStep]
  | cons p rest ih =>
    intro i
    have hmap :
        List.map
            (fun j => if rc % 2 ^ (i + j) = 0 then hashFn ((p :: rest).getD j []) else [])
            (List.range (p :: rest).length)
          = (if rc % 2 ^ i = 0 then hashFn p else [])
              :: List.map
                  (fun j => if rc % 2 ^ ((i + 1) + j) = 0 then hashFn (rest.getD j []) else [])
                  (List.range rest.length) := by
      rw [List.length_cons, List.range_succ_eq_map, List.map_cons, List.map_map]
      refine congrArg₂ List.cons ?_ ?_
      · simp
      · apply List.map_congr_left
        intro j hj
        have hexp : i + (j + 1) = i + 1 + j := by omega
        simp only [Function.comp_apply, List.getD_cons_succ]
        rw [hexp]
    rw [hmap]
    by_cases h : rc % 2 ^ i = 0
    · simp only [poolStep, if_pos h, List.flatten_cons]
      rw [ih (i + 1)]
    · simp only [poolStep, if_neg h, List.flatten_cons, List.nil_append]
      rw [ih (i + 1)]

/-- C1 (amended): when the reseed gating conditions hold, `randomData`'s
scheduling step selects the eligible pools using the reseed-counter value
from before the increment (the increment happens in the subsequent
`reseed` call): pool `i` is hashed into the seed material and reset
exactly when that value satisfies `reseedCount % 2^i == 0`, every other
pool is untouched, and the reseed counter then grows by one.  For the
eligibility value 4 the eligible set is `{0, 1, 2}` (not `{0, 2}`), and
pool 1 is eligible exactly at even values. -/
theorem claim1_reseed_pool_selection (hashFn : HashFn) (now : Int) (s : FState)
    (hg : (s.pools.getD 0 []).length ≥ s.minPoolSize ∧
      now - s.lastReseedTime ≥ RESEED_INTERVAL_MS) :
    (reseedStep hashFn now s).reseedCount = s.reseedCount + 1 ∧
    (∀ j, (reseedStep hashFn now s).pools.getD j []
        = if s.reseedCount % 2 ^ j = 0 then [] else s.pools.getD j []) ∧
    (reseedStep hashFn now s).generatorKey
      = hashFn (s.generatorKey ++ List.flatten (List.map
          (fun j => if s.reseedCount % 2 ^ j = 0 then hashFn (s.pools.getD j []) else [])
          (List.range s.pools.length))) ∧
    (∀ j, j < 32 → ((4 : Nat) % 2 ^ j = 0 ↔ j = 0 ∨ j = 1 ∨ j = 2)) ∧
    (∀ rc : Nat, rc % 2 ^ 1 = 0 ↔ rc % 2 = 0) := by
  have hstep : reseedStep hashFn now s
      = { reseed hashFn (poolStep hashFn s.reseedCount 0 s.pools).1
            { s with pools := (poolStep hashFn s.reseedCount 0 s.pools).2 }
          with lastReseedTime := now } := by
    unfold reseedStep
    rw [if_pos hg]
  refine ⟨?_, ?_, ?_, by decide, fun rc => by norm_num⟩
  · rw [hstep]
    rfl
  · intro j
    rw [hstep]
    have h := poolStep_snd_getD hashFn s.reseedCount s.pools 0 j
    simpa using h
  · rw [hstep]
    have h := poolStep_fst hashFn s.reseedCount s.pools 0
    simp only [Nat.zero_add] at h
    show hashFn (s.generatorKey ++ (poolStep hashFn s.reseedCount 0 s.pools).1) = _
    rw [h]

/-- The concrete state exhibiting the C1 counterexample: reseed counter 4,
pool 0 full, pools 1 and 2 nonempty. -/
def sEx : FState :=
  { generatorKey := List.replicate 32 0,
    generatorCounter := List.replicate 16 0,
    pools := List.replicate 64 0 :: [7] :: [8] :: List.replicate 29 ([] : Bytes),
    reseedCount := 4,
    lastReseedTime := 0,
    minPoolSize := 64,
    seeded := true }

/-- C1 counterexample: on a state whose reseed counter is 4 and whose
gating conditions hold, the scheduling step clears pools 1 and 2 (both
nonempty beforehand) and bumps the counter to 5.  Under the claim's
eligible set `{0, 2}` pool 1 would have to be untouched, and under the
claim's increment-first reading (eligibility tested on the value 5) both
pools 1 and 2 would have to be untouched; the code does neither. -/
theorem claim1_counterexample :
    sEx.reseedCount = 4 ∧
    sEx.pools.getD 1 [] = [7] ∧
    sEx.pools.getD 2 [] = [8] ∧
    (reseedStep hash0 1000 sEx).pools.getD 1 [] = [] ∧
    (reseedStep hash0 1000 sEx).pools.getD 2 [] = [] ∧
    (reseedStep hash0 1000 sEx).reseedCount = 5 :=
  ⟨rfl, rfl, rfl, by rfl, by rfl, by rfl⟩

/-- C4: on every call to `randomData`, the scheduling step reseeds exactly
when pool 0 holds at least the 64-byte minimum and at least 100 ms have
elapsed since the last reseed, in which case the last-reseed time becomes
the current clock reading; when the conditions fail the state is left
untouched; and the whole observable behaviour of `randomData` depends on
the input state only through this check-and-maybe-reseed step, i.e. the
step runs before any output bytes are produced. -/
theorem claim4_reseed_gating (hashFn : HashFn) (enc : EncFn) (clock : Clock) (fuel : Nat)
    (n : Int) (t : Nat) (s : FState) (hmin : s.minPoolSize = 64) :
    (((s.pools.getD 0 []).length ≥ 64 ∧ clock t - s.lastReseedTime ≥ 100) ↔
      ((reseedStep hashFn (clock t) s).reseedCount = s.reseedCount + 1 ∧
        (reseedStep hashFn (clock t) s).lastReseedTime = clock t)) ∧
    (¬ ((s.pools.getD 0 []).length ≥ 64 ∧ clock t - s.lastReseedTime ≥ 100) →
      reseedStep hashFn (clock t) s = s) ∧
    (∀ s₂ : FState, reseedStep hashFn (clock t) s = reseedStep hashFn (clock t) s₂ →
      randomData hashFn enc clock fuel n t s = randomData hashFn enc clock fuel n t s₂) := by
  have hcond : ((s.pools.getD 0 []).length ≥ s.minPoolSize ∧
      clock t - s.lastReseedTime ≥ RESEED_INTERVAL_MS) ↔
      ((s.pools.getD 0 []).length ≥ 64 ∧ clock t - s.lastReseedTime ≥ 100) := by
    rw [hmin]
    exact Iff.rfl
  refine ⟨⟨?_, ?_⟩, ?_, ?_⟩
  · intro h
    rw [reseedStep, if_pos (hcond.mpr h)]
    simp [reseed]
  · intro h
    by_contra hnc
    have hstep : reseedStep hashFn (clock t) s = s := by
      rw [reseedStep, if_neg (fun hc => hnc (hcond.mp hc))]
    rw [hstep] at h
    omega
  · intro h
    rw [reseedStep, if_neg (fun hc => h (hcond.mp hc))]
  · intro s₂ he
    simp only [randomData]
    rw [he]

theorem claim4_witness : reseedStep hash0 (clock0 0) sCon = sCon :=
  (claim4_reseed_gating hash0 enc0 clock0 1 4 0 sCon rfl).2.1 (by decide)

theorem claim1_witness :
    (reseedStep hash0 1000 sEx).reseedCount = sEx.reseedCount + 1 :=
  (claim1_reseed_pool_selection hash0 1000 sEx (by decide)).1

/-! Helper lemmas running the block generator. -/

theorem genBlocksLoop_ok (enc : EncFn) (he : ∀ k b, (enc k b).length = BLOCK_SIZE_BYTES) :
    ∀ (k : Nat) (s : FState), s.seeded = true → s.generatorKey.length = KEY_SIZE_BYTES →
      ∃ out, genBlocksLoop enc k s
          = .ok (out, { s with generatorCounter := incBE^[k] s.generatorCounter }) ∧
        out.length = BLOCK_SIZE_BYTES * k := by
  intro k
  induction k with
  | zero =>
    intro s hs hk
    exact ⟨[], rfl, rfl⟩
  | succ k ih =>
    intro s hs hk
    have hbe : blockEncrypt enc s = .ok (enc s.generatorKey s.generatorCounter) := by
      simp [blockEncrypt, hs, hk, he]
    obtain ⟨out, hloop, hlen⟩ :=
      ih { s with generatorCounter := incBE s.generatorCounter } hs hk
    refine ⟨enc s.generatorKey s.generatorCounter ++ out, ?_, ?_⟩
    · simp only [genBlocksLoop, hbe, hloop]
      rfl
    · simp only [List.length_append, he, hlen]
      ring

theorem generateBlocks_ok (enc : EncFn) (he : ∀ k b, (enc k b).length = BLOCK_SIZE_BYTES)
    (k : Nat) (s : FState) (hs : s.seeded = true)
    (hk : s.generatorKey.length = KEY_SIZE_BYTES) :
    ∃ out, generateBlocks enc k s
        = .ok (out, { s with generatorCounter := incBE^[k] s.generatorCounter }) ∧
      out.length = BLOCK_SIZE_BYTES * k := by
  cases k with
  | zero =>
    refine ⟨[], ?_, rfl⟩
    unfold generateBlocks
    rw [if_neg (by rw [hs]; simp), if_pos rfl]
    rfl
  | succ k =>
    obtain ⟨out, h1, h2⟩ := genBlocksLoop_ok enc he (k + 1) s hs hk
    refine ⟨out, ?_, h2⟩
    unfold generateBlocks
    rw [if_neg (by rw [hs]; simp), if_neg (by simp)]
    exact h1

theorem pseudoRandomData_run (enc : EncFn) (he : ∀ k b, (enc k b).length = BLOCK_SIZE_BYTES)
    (n : Int) (s : FState) (h0 : 0 < n) (h1 : n ≤ MAX_GENERATE_BYTES)
    (hs : s.seeded = true) (hk : s.generatorKey.length = KEY_SIZE_BYTES) :
    ∃ blocks keyBlocks,
      generateBlocks enc (ceil16 n) s
        = .ok (blocks, { s with generatorCounter := incBE^[ceil16 n] s.generatorCounter }) ∧
      blocks.length = BLOCK_SIZE_BYTES * ceil16 n ∧
      generateBlocks enc 2 { s with generatorCounter := incBE^[ceil16 n] s.generatorCounter }
        = .ok (keyBlocks, { s with generatorCounter := incBE^[2] (incBE^[ceil16 n] s.generatorCounter) }) ∧
      keyBlocks.length = KEY_SIZE_BYTES ∧
      pseudoRandomData enc n s
        = .ok (blocks.take n.toNat, { s with generatorCounter := incBE^[2] (incBE^[ceil16 n] s.generatorCounter), generatorKey := keyBlocks }) ∧
      (blocks.take n.toNat).length = n.toNat := by
  obtain ⟨blocks, hb1, hb2⟩ := generateBlocks_ok enc he (ceil16 n) s hs hk
  obtain ⟨keyBlocks, hkb1, hkb2⟩ :=
    generateBlocks_ok enc he 2 { s with generatorCounter := incBE^[ceil16 n] s.generatorCounter } hs hk
  have hkey32 : keyBlocks.length = KEY_SIZE_BYTES := by
    rw [hkb2]
    rfl
  have htake : (blocks.take n.toNat).length = n.toNat := by
    rw [List.length_take]
    simp only [BLOCK_SIZE_BYTES, ceil16] at hb2
    have hpos : 1 ≤ n.toNat := by omega
    omega
  refine ⟨blocks, keyBlocks, hb1, hb2, hkb1, hkey32, ?_, htake⟩
  have hc1 : ¬ (n < 0 ∨ n > MAX_GENERATE_BYTES) := by
    push_neg
    constructor
    · omega
    · exact h1
  have hc2 : ¬ (n = 0) := by omega
  simp only [pseudoRandomData, if_neg hc1, if_neg hc2, hb1, hkb1]
  rw [if_neg (by rw [hkey32]; simp)]

/-- C3: `pseudoRandomData(n)` fails with `InvalidArgument` when `n` is
negative or above the 1 MiB cap, returns an empty buffer for `n = 0`, and
otherwise generates `ceil(n/16)` blocks, then two further blocks (exactly
32 bytes) that wholesale replace the generator key, and returns exactly
the first `n` bytes of the pre-rekey block stream, discarding the padding
past `n`. -/
theorem claim3_pseudoRandomData (enc : EncFn) (n : Int) (s : FState)
    (he : ∀ k b, (enc k b).length = BLOCK_SIZE_BYTES)
    (hs : s.seeded = true) (hk : s.generatorKey.length = KEY_SIZE_BYTES) :
    ((n < 0 ∨ n > 1048576) → pseudoRandomData enc n s = .error .invalidArgument) ∧
    (n = 0 → pseudoRandomData enc n s = .ok ([], s)) ∧
    (0 < n → n ≤ 1048576 →
      ∃ blocks s1 keyBlocks s2,
        generateBlocks enc ((n.toNat + 15) / 16) s = .ok (blocks, s1) ∧
        blocks.length = 16 * ((n.toNat + 15) / 16) ∧
        generateBlocks enc 2 s1 = .ok (keyBlocks, s2) ∧
        keyBlocks.length = 32 ∧
        pseudoRandomData enc n s
          = .ok (blocks.take n.toNat, { s2 with generatorKey := keyBlocks }) ∧
        (blocks.take n.toNat).length = n.toNat) := by
  refine ⟨?_, ?_, ?_⟩
  · intro h
    have h' : n < 0 ∨ n > MAX_GENERATE_BYTES := h
    unfold pseudoRandomData
    rw [if_pos h']
  · intro h
    subst h
    norm_num [pseudoRandomData, MAX_GENERATE_BYTES]
  · intro h0 h1
    obtain ⟨blocks, keyBlocks, hb1, hb2, hkb1, hkey32, hrun, htake⟩ :=
      pseudoRandomData_run enc he n s h0 h1 hs hk
    exact ⟨blocks, _, keyBlocks, _, hb1, hb2, hkb1, hkey32, hrun, htake⟩

theorem claim3_witness : pseudoRandomData enc0 0 sCon = .ok ([], sCon) :=
  (claim3_pseudoRandomData enc0 0 sCon (fun _ _ => rfl) rfl rfl).2.1 rfl

/-! Helper lemma about the rejection loop. -/

theorem rejLoop_lt (hashFn : HashFn) (enc : EncFn) (clock : Clock) :
    ∀ (fuel : Nat) (limit : Int) (t : Nat) (s : FState) (rnd : Nat) (s' : FState) (t' : Nat),
      rejLoop hashFn enc clock fuel limit t s = .ok (rnd, s', t') → (rnd : Int) < limit := by
  intro fuel
  induction fuel with
  | zero =>
    intro limit t s rnd s' t' h
    exact absurd h (by simp [rejLoop])
  | succ f ih =>
    intro limit t s rnd s' t' h
    simp only [rejLoop] at h
    split at h
    · exact absurd h (by simp)
    · split at h
      · exact ih _ _ _ _ _ _ h
      · cases h
        rename_i hge
        omega

/-- C2: for `min < max`, whenever `generateInt32` returns a value it was
produced by repeatedly drawing a raw unsigned 32-bit big-endian value from
4 bytes of generator output until one below
`limit = 2^32 - (2^32 mod range)` (with `range = max - min + 1`) was
accepted: the accepted draw fed into the modulo step is strictly below
`limit`, the result is `min + (draw mod range)`, and it always lies in the
inclusive range `[min, max]`. -/
theorem claim2_generateInt32 (hashFn : HashFn) (enc : EncFn) (clock : Clock) (fuel : Nat)
    (mn mx : Int) (t : Nat) (s : FState) (v : Int) (s' : FState) (t' : Nat)
    (hlt : mn < mx)
    (hok : generateInt32 hashFn enc clock fuel mn mx t s = .ok (v, s', t')) :
    ∃ rnd : Nat,
      rejLoop hashFn enc clock fuel (4294967296 - 4294967296 % (mx - mn + 1)) t s
        = .ok (rnd, s', t') ∧
      (rnd : Int) < 4294967296 - 4294967296 % (mx - mn + 1) ∧
      v = (rnd : Int) % (mx - mn + 1) + mn ∧
      mn ≤ v ∧ v ≤ mx := by
  have hne : ¬ (mn = mx) := ne_of_lt hlt
  have hngt : ¬ (mn > mx) := not_lt.mpr (le_of_lt hlt)
  simp only [generateInt32, if_neg hngt, if_neg hne] at hok
  split at hok
  · exact absurd hok (by simp)
  · rename_i rnd s1 t1 heq
    have hrange : (0 : Int) < mx - mn + 1 := by omega
    have hradj := rejLoop_lt hashFn enc clock fuel
      (UINT32_MAX_COUNT - UINT32_MAX_COUNT % (mx - mn + 1)) t s rnd s1 t1 heq
    have hmod0 : (0 : Int) ≤ (rnd : Int) % (mx - mn + 1) :=
      Int.emod_nonneg _ (ne_of_gt hrange)
    have hmod1 : (rnd : Int) % (mx - mn + 1) < mx - mn + 1 :=
      Int.emod_lt_of_pos _ hrange
    cases hok
    refine ⟨rnd, heq, hradj, rfl, ?_, ?_⟩
    · omega
    · omega

theorem claim2_witness :
    ∃ rnd : Nat,
      rejLoop hash0 enc0 clock0 1 (4294967296 - 4294967296 % ((2 : Int) - 0 + 1)) 0 sCon
        = .ok (rnd, sAfterC2, 1) ∧
      (rnd : Int) < 4294967296 - 4294967296 % ((2 : Int) - 0 + 1) ∧
      (0 : Int) = (rnd : Int) % ((2 : Int) - 0 + 1) + 0 ∧
      (0 : Int) ≤ 0 ∧ (0 : Int) ≤ 2 :=
  claim2_generateInt32 hash0 enc0 clock0 1 0 2 0 sCon 0 sAfterC2 1 (by decide) (by rfl)

/-! Safety chain: once the generator is seeded, no operation can fail with
`NotSeeded`, the seeded flag stays set, and the reseed count never
decreases. -/

theorem blockEncrypt_no_notSeeded (enc : EncFn) (s : FState) (hs : s.seeded = true) :
    blockEncrypt enc s ≠ .error .notSeeded := by
  unfold blockEncrypt
  rw [if_neg (by rw [hs]; simp)]
  by_cases h2 : s.generatorKey.length ≠ KEY_SIZE_BYTES
  · rw [if_pos h2]
    simp
  · rw [if_neg h2]
    show (if (enc s.generatorKey s.generatorCounter).length ≠ BLOCK_SIZE_BYTES then
        Except.error Err.internalError
      else Except.ok (enc s.generatorKey s.generatorCounter)) ≠ Except.error Err.notSeeded
    by_cases h3 : (enc s.generatorKey s.generatorCounter).length ≠ BLOCK_SIZE_BYTES
    · rw [if_pos h3]
      simp
    · rw [if_neg h3]
      simp

theorem genBlocksLoop_safe (enc : EncFn) :
    ∀ (k : Nat) (s : FState), s.seeded = true →
      genBlocksLoop enc k s ≠ .error .notSeeded ∧
      ∀ out s', genBlocksLoop enc k s = .ok (out, s') →
        s'.seeded = true ∧ s'.reseedCount = s.reseedCount := by
  intro k
  induction k with
  | zero =>
    intro s hs
    refine ⟨by simp [genBlocksLoop], ?_⟩
    intro out s' h
    cases h
    exact ⟨hs, rfl⟩
  | succ k ih =>
    intro s hs
    constructor
    · simp only [genBlocksLoop]
      split
      · rename_i e hbe
        intro hcon
        cases hcon
        exact blockEncrypt_no_notSeeded enc s hs hbe
      · rename_i b hbe
        split
        · rename_i e hloop
          intro hcon
          cases hcon
          exact (ih { s with generatorCounter := incBE s.generatorCounter } hs).1 hloop
        · simp
    · intro out s' h
      simp only [genBlocksLoop] at h
      split at h
      · exact absurd h (by simp)
      · split at h
        · exact absurd h (by simp)
        · rename_i rest s2 hloop
          cases h
          exact (ih { s with generatorCounter := incBE s.generatorCounter } hs).2 _ _ hloop

theorem generateBlocks_safe (enc : EncFn) (k : Nat) (s : FState) (hs : s.seeded = true) :
    generateBlocks enc k s ≠ .error .notSeeded ∧
    ∀ out s', generateBlocks enc k s = .ok (out, s') →
      s'.seeded = true ∧ s'.reseedCount = s.reseedCount := by
  unfold generateBlocks
  rw [if_neg (by rw [hs]; simp)]
  split
  · refine ⟨by simp, ?_⟩
    intro out s' h
    cases h
    exact ⟨hs, rfl⟩
  · exact genBlocksLoop_safe enc k s hs

theorem pseudoRandomData_safe (enc : EncFn) (n : Int) (s : FState) (hs : s.seeded = true) :
    pseudoRandomData enc n s ≠ .error .notSeeded ∧
    ∀ out s', pseudoRandomData enc n s = .ok (out, s') →
      s'.seeded = true ∧ s'.reseedCount = s.reseedCount := by
  unfold pseudoRandomData
  split
  · exact ⟨by simp, fun out s' h => absurd h (by simp)⟩
  · split
    · refine ⟨by simp, ?_⟩
      intro out s' h
      cases h
      exact ⟨hs, rfl⟩
    · split
      · rename_i e hgb
        constructor
        · intro hcon
          cases hcon
          exact (generateBlocks_safe enc _ s hs).1 hgb
        · intro out s' h
          exact absurd h (by simp)
      · rename_i gData s1 hgb
        have h1 := (generateBlocks_safe enc _ s hs).2 gData s1 hgb
        split
        · rename_i e hgb2
          constructor
          · intro hcon
            cases hcon
            exact (generateBlocks_safe enc 2 s1 h1.1).1 hgb2
          · intro out s' h
            exact absurd h (by simp)
        · rename_i kData s2 hgb2
          have h2 := (generateBlocks_safe enc 2 s1 h1.1).2 kData s2 hgb2
          split
          · exact ⟨by simp, fun out s' h => absurd h (by simp)⟩
          · constructor
            · simp
            · intro out s' h
              cases h
              refine ⟨h2.1, ?_⟩
              rw [h2.2, h1.2]

theorem reseedStep_safe (hashFn : HashFn) (now : Int) (s : FState) :
    (s.seeded = true → (reseedStep hashFn now s).seeded = true) ∧
    s.reseedCount ≤ (reseedStep hashFn now s).reseedCount := by
  unfold reseedStep
  split
  · exact ⟨fun _ => rfl, Nat.le_succ _⟩
  · exact ⟨fun h => h, Nat.le_refl _⟩

theorem reseedStep_keylen (hashFn : HashFn) (now : Int) (s : FState)
    (hhash : ∀ x, (hashFn x).length = KEY_SIZE_BYTES)
    (hk : s.generatorKey.length = KEY_SIZE_BYTES) :
    (reseedStep hashFn now s).generatorKey.length = KEY_SIZE_BYTES := by
  unfold reseedStep
  split
  · exact hhash _
  · exact hk

theorem randomDataBase_safe (hashFn : HashFn) (enc : EncFn) (clock : Clock) (n : Int)
    (t : Nat) (s : FState) (hs : s.seeded = true) :
    randomDataBase hashFn enc clock n t s ≠ .error .notSeeded ∧
    ∀ out s' t', randomDataBase hashFn enc clock n t s = .ok (out, s', t') →
      s'.seeded = true ∧ s.reseedCount ≤ s'.reseedCount := by
  have hstep := reseedStep_safe hashFn (clock t) s
  have hs1 : (reseedStep hashFn (clock t) s).seeded = true := hstep.1 hs
  have hp := pseudoRandomData_safe enc n (reseedStep hashFn (clock t) s) hs1
  unfold randomDataBase
  rw [if_neg (by rw [hs1]; simp)]
  constructor
  · split
    · rename_i e hpr
      intro hcon
      cases hcon
      exact hp.1 hpr
    · simp
  · intro out s' t' h
    split at h
    · exact absurd h (by simp)
    · rename_i o s2 hpr
      cases h
      have h2 := hp.2 _ _ hpr
      exact ⟨h2.1, le_trans hstep.2 (le_of_eq h2.2.symm)⟩

theorem getRaw32_safe (hashFn : HashFn) (enc : EncFn) (clock : Clock) (t : Nat)
    (s : FState) (hs : s.seeded = true) :
    getRaw32 hashFn enc clock t s ≠ .error .notSeeded ∧
    ∀ rnd s' t', getRaw32 hashFn enc clock t s = .ok (rnd, s', t') →
      s'.seeded = true ∧ s.reseedCount ≤ s'.reseedCount := by
  have hb := randomDataBase_safe hashFn enc clock 4 t s hs
  unfold getRaw32
  constructor
  · split
    · rename_i e hrb
      intro hcon
      cases hcon
      exact hb.1 hrb
    · simp
  · intro rnd s' t' h
    split at h
    · exact absurd h (by simp)
    · rename_i buf s1 t1 hrb
      cases h
      exact hb.2 _ _ _ hrb

theorem rejLoop_safe (hashFn : HashFn) (enc : EncFn) (clock : Clock) :
    ∀ (fuel : Nat) (limit : Int) (t : Nat) (s : FState), s.seeded = true →
      rejLoop hashFn enc clock fuel limit t s ≠ .error .notSeeded ∧
      ∀ rnd s' t', rejLoop hashFn enc clock fuel limit t s = .ok (rnd, s', t') →
        s'.seeded = true ∧ s.reseedCount ≤ s'.reseedCount := by
  intro fuel
  induction fuel with
  | zero =>
    intro limit t s hs
    exact ⟨by simp [rejLoop], fun rnd s' t' h => absurd h (by simp [rejLoop])⟩
  | succ f ih =>
    intro limit t s hs
    have hg := getRaw32_safe hashFn enc clock t s hs
    constructor
    · simp only [rejLoop]
      split
      · rename_i e hraw
        intro hcon
        cases hcon
        exact hg.1 hraw
      · rename_i r s1 t1 hraw
        have h1 := hg.2 r s1 t1 hraw
        split
        · exact (ih limit t1 s1 h1.1).1
        · simp
    · intro rnd s' t' h
      simp only [rejLoop] at h
      split at h
      · exact absurd h (by simp)
      · rename_i r s1 t1 hraw
        have h1 := hg.2 r s1 t1 hraw
        split at h
        · have h2 := (ih limit t1 s1 h1.1).2 rnd s' t' h
          exact ⟨h2.1, le_trans h1.2 h2.2⟩
        · cases h
          exact h1

theorem generateInt32_safe (hashFn : HashFn) (enc : EncFn) (clock : Clock) (fuel : Nat)
    (mn mx : Int) (t : Nat) (s : FState) (hs : s.seeded = true) :
    generateInt32 hashFn enc clock fuel mn mx t s ≠ .error .notSeeded ∧
    ∀ v s' t', generateInt32 hashFn enc clock fuel mn mx t s = .ok (v, s', t') →
      s'.seeded = true ∧ s.reseedCount ≤ s'.reseedCount := by
  have hr := rejLoop_safe hashFn enc clock fuel
    (UINT32_MAX_COUNT - UINT32_MAX_COUNT % (mx - mn + 1)) t s hs
  simp only [generateInt32]
  split
  · exact ⟨by simp, fun v s' t' h => absurd h (by simp)⟩
  · split
    · refine ⟨by simp, ?_⟩
      intro v s' t' h
      cases h
      exact ⟨hs, Nat.le_refl _⟩
    · constructor
      · split
        · rename_i e hrej
          intro hcon
          cases hcon
          exact hr.1 hrej
        · simp
      · intro v s' t' h
        split at h
        · exact absurd h (by simp)
        · rename_i rnd s1 t1 hrej
          cases h
          exact hr.2 _ _ _ hrej

theorem addRandomEvent_safe (sourceId poolId : Int) (eventData : Bytes) (s : FState) :
    addRandomEvent sourceId poolId eventData s ≠ .error .notSeeded ∧
    ∀ s', addRandomEvent sourceId poolId eventData s = .ok s' →
      s'.seeded = s.seeded ∧ s'.reseedCount = s.reseedCount ∧
      s'.generatorKey = s.generatorKey := by
  unfold addRandomEvent
  split
  · exact ⟨by simp, fun s' h => absurd h (by simp)⟩
  · split
    · exact ⟨by simp, fun s' h => absurd h (by simp)⟩
    · split
      · exact ⟨by simp, fun s' h => absurd h (by simp)⟩
      · refine ⟨by simp, ?_⟩
        intro s' h
        cases h
        exact ⟨rfl, rfl, rfl⟩

theorem chunkLoop_safe (hashFn : HashFn) (enc : EncFn) (clock : Clock) (fuel : Nat) :
    ∀ (rem t : Nat) (s : FState), s.seeded = true →
      chunkLoop hashFn enc clock fuel rem t s ≠ .error .notSeeded ∧
      ∀ out s' t', chunkLoop hashFn enc clock fuel rem t s = .ok (out, s', t') →
        s'.seeded = true ∧ s.reseedCount ≤ s'.reseedCount := by
  intro rem
  induction rem using Nat.strong_induction_on with
  | _ rem ih =>
    match rem with
    | 0 =>
      intro t s hs
      refine ⟨by simp [chunkLoop], ?_⟩
      intro out s' t' h
      simp only [chunkLoop] at h
      cases h
      exact ⟨hs, Nat.le_refl _⟩
    | rem + 1 =>
      intro t s hs
      have hdec : rem + 1 - min (rem + 1) MAX_GENERATE_BYTES.toNat < rem + 1 := by
        have h1 : 1 ≤ min (rem + 1) MAX_GENERATE_BYTES.toNat :=
          le_min (Nat.succ_le_succ (Nat.zero_le rem)) (by decide)
        omega
      have hp1 := pseudoRandomData_safe enc
        ((min (rem + 1) MAX_GENERATE_BYTES.toNat : Nat) : Int) s hs
      constructor
      · simp only [chunkLoop]
        split
        · rename_i e h1
          intro hcon
          cases hcon
          exact hp1.1 h1
        · rename_i chunk s1 h1
          have hs1 := (hp1.2 _ _ h1).1
          have hg := generateInt32_safe hashFn enc clock fuel 0 31 t s1 hs1
          split
          · rename_i e h2
            intro hcon
            cases hcon
            exact hg.1 h2
          · rename_i pid s2 t2 h2
            have hs2 := (hg.2 _ _ _ h2).1
            have hp3 := pseudoRandomData_safe enc 32 s2 hs2
            split
            · rename_i e h3
              intro hcon
              cases hcon
              exact hp3.1 h3
            · rename_i d32 s3 h3
              have hs3 := (hp3.2 _ _ h3).1
              have ha := addRandomEvent_safe RESERVED_POOL_ID4 pid d32 s3
              split
              · rename_i e h4
                intro hcon
                cases hcon
                exact ha.1 h4
              · rename_i s4 h4
                have hs4 : s4.seeded = true := by
                  rw [(ha.2 _ h4).1]
                  exact hs3
                have hrec := ih _ hdec t2 s4 hs4
                split
                · rename_i e h5
                  intro hcon
                  cases hcon
                  exact hrec.1 h5
                · simp
      · intro out s' t' h
        simp only [chunkLoop] at h
        split at h
        · exact absurd h (by simp)
        · rename_i chunk s1 h1
          have hq1 := hp1.2 _ _ h1
          have hg := generateInt32_safe hashFn enc clock fuel 0 31 t s1 hq1.1
          split at h
          · exact absurd h (by simp)
          · rename_i pid s2 t2 h2
            have hq2 := hg.2 _ _ _ h2
            have hp3 := pseudoRandomData_safe enc 32 s2 hq2.1
            split at h
            · exact absurd h (by simp)
            · rename_i d32 s3 h3
              have hq3 := hp3.2 _ _ h3
              have ha := addRandomEvent_safe RESERVED_POOL_ID4 pid d32 s3
              split at h
              · exact absurd h (by simp)
              · rename_i s4 h4
                have hq4 := ha.2 _ h4
                have hs4 : s4.seeded = true := by
                  rw [hq4.1]
                  exact hq3.1
                have hrec := ih _ hdec t2 s4 hs4
                split at h
                · exact absurd h (by simp)
                · rename_i outR s5 t5 h5
                  have hq5 := hrec.2 _ _ _ h5
                  obtain ⟨-, h1rc⟩ := hq1
                  obtain ⟨-, h2rc⟩ := hq2
                  obtain ⟨-, h3rc⟩ := hq3
                  obtain ⟨-, h4rc, -⟩ := hq4
                  obtain ⟨hq5a, h5rc⟩ := hq5
                  cases h
                  exact ⟨hq5a, by omega⟩

theorem randomData_safe (hashFn : HashFn) (enc : EncFn) (clock : Clock) (fuel : Nat)
    (n : Int) (t : Nat) (s : FState) (hs : s.seeded = true) :
    randomData hashFn enc clock fuel n t s ≠ .error .notSeeded ∧
    ∀ out s' t', randomData hashFn enc clock fuel n t s = .ok (out, s', t') →
      s'.seeded = true ∧ s.reseedCount ≤ s'.reseedCount := by
  have hstep := reseedStep_safe hashFn (clock t) s
  have hs1 : (reseedStep hashFn (clock t) s).seeded = true := hstep.1 hs
  have hp := pseudoRandomData_safe enc n (reseedStep hashFn (clock t) s) hs1
  have hc := chunkLoop_safe hashFn enc clock fuel n.toNat (t + 1)
    (reseedStep hashFn (clock t) s) hs1
  unfold randomData
  rw [if_neg (by rw [hs1]; simp)]
  split
  · constructor
    · split
      · rename_i e hpr
        intro hcon
        cases hcon
        exact hp.1 hpr
      · simp
    · intro out s' t' h
      split at h
      · exact absurd h (by simp)
      · rename_i o s2 hpr
        cases h
        have h2 := hp.2 _ _ hpr
        exact ⟨h2.1, le_trans hstep.2 (le_of_eq h2.2.symm)⟩
  · constructor
    · exact hc.1
    · intro out s' t' h
      have h2 := hc.2 _ _ _ h
      exact ⟨h2.1, le_trans hstep.2 h2.2⟩

/-- C10: a successfully constructed instance has performed a full 64-byte
seed (the caller's buffer or, when none is supplied, the 64 freshly drawn
strong random bytes, with which construction always succeeds), so
`seeded = true` and `reseedCount ≥ 1` hold at construction; these
invariants are preserved by `randomData` and `addRandomEvent`; and on any
seeded state the `NotSeeded` error branch of `randomData` is unreachable. -/
theorem claim10_constructor_seeds (hashFn : HashFn) (enc : EncFn) (clock : Clock)
    (fuel : Nat) (now : Int) (seedArg : Option Bytes) (randBytes : Bytes) (n : Int)
    (t : Nat) :
    (seedArg = none → randBytes.length = 64 →
      ∃ s, constructFortuna hashFn now seedArg randBytes = .ok s) ∧
    (∀ s, constructFortuna hashFn now seedArg randBytes = .ok s →
      s.seeded = true ∧ 1 ≤ s.reseedCount) ∧
    (∀ s, s.seeded = true →
      randomData hashFn enc clock fuel n t s ≠ .error .notSeeded) ∧
    (∀ s out s' t', s.seeded = true →
      randomData hashFn enc clock fuel n t s = .ok (out, s', t') →
      s'.seeded = true ∧ (1 ≤ s.reseedCount → 1 ≤ s'.reseedCount)) ∧
    (∀ s sourceId poolId eventData s', s.seeded = true →
      addRandomEvent sourceId poolId eventData s = .ok s' →
      s'.seeded = true ∧ s'.reseedCount = s.reseedCount) := by
  refine ⟨?_, ?_, ?_, ?_, ?_⟩
  · intro hnone hlen
    subst hnone
    unfold constructFortuna seedFromData
    simp only [Option.getD_none]
    rw [if_neg (by rw [hlen]; simp)]
    exact ⟨_, rfl⟩
  · intro s h
    unfold constructFortuna seedFromData at h
    split at h
    · exact absurd h (by simp)
    · cases h
      exact ⟨rfl, Nat.le_refl 1⟩
  · intro s hs
    exact (randomData_safe hashFn enc clock fuel n t s hs).1
  · intro s out s' t' hs h
    have h2 := (randomData_safe hashFn enc clock fuel n t s hs).2 _ _ _ h
    exact ⟨h2.1, fun h1 => le_trans h1 h2.2⟩
  · intro s sourceId poolId eventData s' hs h
    have h2 := (addRandomEvent_safe sourceId poolId eventData s).2 _ h
    rw [h2.1, h2.2.1]
    exact ⟨hs, rfl⟩

theorem claim10_witness :
    ∃ s, constructFortuna hash0 0 none (List.replicate 64 0) = .ok s :=
  (claim10_constructor_seeds hash0 enc0 clock0 1 0 none (List.replicate 64 0) 4 0).1
    rfl (by decide)

/-! Success chain: with a well-behaved hash and block cipher, every
nonnegative request succeeds. -/

theorem blockEncrypt_ok_eq (enc : EncFn) (s : FState) (b : Bytes)
    (h : blockEncrypt enc s = .ok b) : b = enc s.generatorKey s.generatorCounter := by
  simp only [blockEncrypt] at h
  split at h
  · exact absurd h (by simp)
  · split at h
    · exact absurd h (by simp)
    · split at h
      · exact absurd h (by simp)
      · cases h
        rfl

theorem genBlocksLoop_bytes (enc : EncFn) (hb : ∀ k b, ∀ x ∈ enc k b, x < 256) :
    ∀ (k : Nat) (s : FState) (out : Bytes) (s' : FState),
      genBlocksLoop enc k s = .ok (out, s') → ∀ x ∈ out, x < 256 := by
  intro k
  induction k with
  | zero =>
    intro s out s' h
    cases h
    simp
  | succ k ih =>
    intro s out s' h
    simp only [genBlocksLoop] at h
    split at h
    · exact absurd h (by simp)
    · rename_i b hbe
      split at h
      · exact absurd h (by simp)
      · rename_i rest s2 hloop
        cases h
        intro x hx
        rcases List.mem_append.mp hx with hx | hx
        · rw [blockEncrypt_ok_eq enc s b hbe] at hx
          exact hb _ _ x hx
        · exact ih _ _ _ hloop x hx

theorem generateBlocks_bytes (enc : EncFn) (hb : ∀ k b, ∀ x ∈ enc k b, x < 256)
    (k : Nat) (s : FState) (out : Bytes) (s' : FState)
    (h : generateBlocks enc k s = .ok (out, s')) : ∀ x ∈ out, x < 256 := by
  unfold generateBlocks at h
  split at h
  · exact absurd h (by simp)
  · split at h
    · cases h
      simp
    · exact genBlocksLoop_bytes enc hb k s out s' h

theorem pseudoRandomData_okE (enc : EncFn) (he : ∀ k b, (enc k b).length = BLOCK_SIZE_BYTES)
    (n : Int) (s : FState) (h0 : 0 ≤ n) (h1 : n ≤ MAX_GENERATE_BYTES)
    (hs : s.seeded = true) (hk : s.generatorKey.length = KEY_SIZE_BYTES) :
    ∃ out s', pseudoRandomData enc n s = .ok (out, s') ∧
      out.length = n.toNat ∧ s'.seeded = true ∧
      s'.generatorKey.length = KEY_SIZE_BYTES ∧
      ((∀ k b, ∀ x ∈ enc k b, x < 256) → ∀ x ∈ out, x < 256) := by
  rcases lt_or_eq_of_le h0 with h | h
  · obtain ⟨blocks, keyBlocks, hb1, hb2, hkb1, hkey32, hrun, htake⟩ :=
      pseudoRandomData_run enc he n s h h1 hs hk
    refine ⟨_, _, hrun, htake, hs, hkey32, ?_⟩
    intro hb x hx
    have hxb : x ∈ blocks := List.take_subset _ _ hx
    exact generateBlocks_bytes enc hb _ _ _ _ hb1 x hxb
  · subst h
    refine ⟨[], s, ?_, rfl, hs, hk, fun _ x hx => absurd hx (by simp)⟩
    unfold pseudoRandomData
    rw [if_neg (by norm_num [MAX_GENERATE_BYTES]), if_pos rfl]

theorem getD_lt_256 (l : Bytes) (h : ∀ x ∈ l, x < 256) : ∀ i, l.getD i 0 < 256 := by
  induction l with
  | nil =>
    intro i
    simp [List.getD]
  | cons a l ih =>
    intro i
    cases i with
    | zero => exact h a (by simp)
    | succ j =>
      rw [List.getD_cons_succ]
      exact ih (fun x hx => h x (by simp [hx])) j

theorem randomDataBase_ok (hashFn : HashFn) (enc : EncFn) (clock : Clock) (n : Int)
    (t : Nat) (s : FState)
    (hhash : ∀ x, (hashFn x).length = KEY_SIZE_BYTES)
    (he : ∀ k b, (enc k b).length = BLOCK_SIZE_BYTES)
    (h0 : 0 ≤ n) (h1 : n ≤ MAX_GENERATE_BYTES)
    (hs : s.seeded = true) (hk : s.generatorKey.length = KEY_SIZE_BYTES) :
    ∃ out s', randomDataBase hashFn enc clock n t s = .ok (out, s', t + 1) ∧
      out.length = n.toNat ∧ s'.seeded = true ∧
      s'.generatorKey.length = KEY_SIZE_BYTES ∧
      ((∀ k b, ∀ x ∈ enc k b, x < 256) → ∀ x ∈ out, x < 256) := by
  have hs1 := (reseedStep_safe hashFn (clock t) s).1 hs
  have hk1 := reseedStep_keylen hashFn (clock t) s hhash hk
  obtain ⟨out, s', hpr, hlen, hs', hk', hbytes⟩ :=
    pseudoRandomData_okE enc he n (reseedStep hashFn (clock t) s) h0 h1 hs1 hk1
  refine ⟨out, s', ?_, hlen, hs', hk', hbytes⟩
  unfold randomDataBase
  rw [if_neg (by rw [hs1]; simp)]
  simp only [hpr]

theorem getRaw32_ok (hashFn : HashFn) (enc : EncFn) (clock : Clock) (t : Nat) (s : FState)
    (hhash : ∀ x, (hashFn x).length = KEY_SIZE_BYTES)
    (he : ∀ k b, (enc k b).length = BLOCK_SIZE_BYTES)
    (hb : ∀ k b, ∀ x ∈ enc k b, x < 256)
    (hs : s.seeded = true) (hk : s.generatorKey.length = KEY_SIZE_BYTES) :
    ∃ rnd s', getRaw32 hashFn enc clock t s = .ok (rnd, s', t + 1) ∧
      rnd < 4294967296 ∧ s'.seeded = true ∧
      s'.generatorKey.length = KEY_SIZE_BYTES := by
  obtain ⟨out, s', hrb, hlen, hs', hk', hbytes⟩ :=
    randomDataBase_ok hashFn enc clock 4 t s hhash he (by norm_num)
      (by norm_num [MAX_GENERATE_BYTES]) hs hk
  have hby := hbytes hb
  have g0 := getD_lt_256 out hby 0
  have g1 := getD_lt_256 out hby 1
  have g2 := getD_lt_256 out hby 2
  have g3 := getD_lt_256 out hby 3
  refine ⟨readUInt32BE out, s', ?_, ?_, hs', hk'⟩
  · unfold getRaw32
    simp only [hrb]
  · unfold readUInt32BE
    omega

theorem generateInt32_0_31_ok (hashFn : HashFn) (enc : EncFn) (clock : Clock) (fuel : Nat)
    (t : Nat) (s : FState) (hf : 1 ≤ fuel)
    (hhash : ∀ x, (hashFn x).length = KEY_SIZE_BYTES)
    (he : ∀ k b, (enc k b).length = BLOCK_SIZE_BYTES)
    (hb : ∀ k b, ∀ x ∈ enc k b, x < 256)
    (hs : s.seeded = true) (hk : s.generatorKey.length = KEY_SIZE_BYTES) :
    ∃ pid s' t', generateInt32 hashFn enc clock fuel 0 31 t s = .ok (pid, s', t') ∧
      0 ≤ pid ∧ pid < 32 ∧ s'.seeded = true ∧
      s'.generatorKey.length = KEY_SIZE_BYTES := by
  obtain ⟨f, rfl⟩ : ∃ f, fuel = f + 1 := ⟨fuel - 1, by omega⟩
  obtain ⟨rnd, s', hraw, hlt, hs', hk'⟩ := getRaw32_ok hashFn enc clock t s hhash he hb hs hk
  have hrej : rejLoop hashFn enc clock (f + 1)
      (UINT32_MAX_COUNT - UINT32_MAX_COUNT % ((31 : Int) - 0 + 1)) t s
      = .ok (rnd, s', t + 1) := by
    simp only [rejLoop, hraw]
    split
    · rename_i hge
      exfalso
      norm_num [UINT32_MAX_COUNT] at hge
      omega
    · rfl
  have e0 : (0 : Int) ≤ (rnd : Int) % ((31 : Int) - 0 + 1) :=
    Int.emod_nonneg _ (by norm_num)
  have e1 : (rnd : Int) % ((31 : Int) - 0 + 1) < (31 : Int) - 0 + 1 :=
    Int.emod_lt_of_pos _ (by norm_num)
  refine ⟨(rnd : Int) % ((31 : Int) - 0 + 1) + 0, s', t + 1, ?_, ?_, ?_, hs', hk'⟩
  · simp only [generateInt32]
    rw [if_neg (by norm_num), if_neg (by norm_num)]
    simp only [hrej]
  · omega
  · omega

theorem addRandomEvent_ok (sourceId poolId : Int) (eventData : Bytes) (s : FState)
    (h1 : 0 ≤ sourceId) (h2 : sourceId ≤ 255) (h3 : 0 ≤ poolId) (h4 : poolId < 32)
    (h5 : 1 ≤ eventData.length) (h6 : eventData.length ≤ 32) :
    ∃ s', addRandomEvent sourceId poolId eventData s = .ok s' ∧
      s'.seeded = s.seeded ∧ s'.generatorKey = s.generatorKey := by
  have hNP : ((NUM_POOLS : Nat) : Int) = 32 := by norm_num [NUM_POOLS]
  unfold addRandomEvent
  rw [if_neg (by omega), if_neg (by rw [hNP]; omega), if_neg (by omega)]
  exact ⟨_, rfl, rfl, rfl⟩

theorem chunkLoop_ok (hashFn : HashFn) (enc : EncFn) (clock : Clock) (fuel : Nat)
    (hhash : ∀ x, (hashFn x).length = KEY_SIZE_BYTES)
    (he : ∀ k b, (enc k b).length = BLOCK_SIZE_BYTES)
    (hb : ∀ k b, ∀ x ∈ enc k b, x < 256)
    (hf : 1 ≤ fuel) :
    ∀ (rem t : Nat) (s : FState), s.seeded = true →
      s.generatorKey.length = KEY_SIZE_BYTES →
      ∃ out s' t', chunkLoop hashFn enc clock fuel rem t s = .ok (out, s', t') := by
  intro rem
  induction rem using Nat.strong_induction_on with
  | _ rem ih =>
    match rem with
    | 0 =>
      intro t s hs hk
      exact ⟨[], s, t, by simp [chunkLoop]⟩
    | rem + 1 =>
      intro t s hs hk
      have hdec : rem + 1 - min (rem + 1) MAX_GENERATE_BYTES.toNat < rem + 1 := by
        have hm : 1 ≤ min (rem + 1) MAX_GENERATE_BYTES.toNat :=
          le_min (Nat.succ_le_succ (Nat.zero_le rem)) (by decide)
        omega
      have hcs1 : (0 : Int) ≤ ((min (rem + 1) MAX_GENERATE_BYTES.toNat : Nat) : Int) :=
        Int.ofNat_nonneg _
      have hcs2 : ((min (rem + 1) MAX_GENERATE_BYTES.toNat : Nat) : Int)
          ≤ MAX_GENERATE_BYTES := by
        have hmr := min_le_right (rem + 1) MAX_GENERATE_BYTES.toNat
        have hM : MAX_GENERATE_BYTES.toNat = 1048576 := rfl
        have hM2 : MAX_GENERATE_BYTES = 1048576 := rfl
        omega
      obtain ⟨chunk, s1, h1, hlen1, hs1, hk1, _⟩ :=
        pseudoRandomData_okE enc he ((min (rem + 1) MAX_GENERATE_BYTES.toNat : Nat) : Int)
          s hcs1 hcs2 hs hk
      obtain ⟨pid, s2, t2, h2, hpid0, hpid32, hs2, hk2⟩ :=
        generateInt32_0_31_ok hashFn enc clock fuel t s1 hf hhash he hb hs1 hk1
      obtain ⟨d32, s3, h3, hlen3, hs3, hk3, _⟩ :=
        pseudoRandomData_okE enc he 32 s2 (by norm_num)
          (by norm_num [MAX_GENERATE_BYTES]) hs2 hk2
      have hlen3a : 1 ≤ d32.length := by
        rw [hlen3]
        norm_num
      have hlen3b : d32.length ≤ 32 := by
        rw [hlen3]
        norm_num
      obtain ⟨s4, h4, hse4, hke4⟩ :=
        addRandomEvent_ok RESERVED_POOL_ID4 pid d32 s3
          (by norm_num [RESERVED_POOL_ID4]) (by norm_num [RESERVED_POOL_ID4])
          hpid0 hpid32 hlen3a hlen3b
      obtain ⟨outR, s5, t5, h5⟩ :=
        ih _ hdec t2 s4 (by rw [hse4]; exact hs3) (by rw [hke4]; exact hk3)
      refine ⟨chunk ++ outR, s5, t5, ?_⟩
      simp only [chunkLoop, h1, h2, h3, h4, h5]

/-- C9 (amended): for any nonnegative requested byte count `n`, a call to
`randomData(n)` either succeeds or fails with `NotSeeded`; the
reseed-scheduling step is a total function (it cannot fail), and no other
error — in particular no `InvalidArgument` — can be raised, assuming the
primitives behave (SHA-256 returns 32 bytes, the cipher returns 16-byte
blocks of bytes) and the key is well-formed.  For negative `n` the claim
fails: see the counterexample. -/
theorem claim9_only_notSeeded (hashFn : HashFn) (enc : EncFn) (clock : Clock) (fuel : Nat)
    (n : Int) (t : Nat) (s : FState)
    (hhash : ∀ x, (hashFn x).length = KEY_SIZE_BYTES)
    (he : ∀ k b, (enc k b).length = BLOCK_SIZE_BYTES)
    (hb : ∀ k b, ∀ x ∈ enc k b, x < 256)
    (hf : 1 ≤ fuel)
    (hk : s.generatorKey.length = KEY_SIZE_BYTES)
    (hn : 0 ≤ n) :
    (∃ out s' t', randomData hashFn enc clock fuel n t s = .ok (out, s', t')) ∨
    randomData hashFn enc clock fuel n t s = .error .notSeeded := by
  by_cases hseed : (reseedStep hashFn (clock t) s).seeded = true
  · left
    have hk1 := reseedStep_keylen hashFn (clock t) s hhash hk
    by_cases hnM : n ≤ MAX_GENERATE_BYTES
    · obtain ⟨out, s', hpr, _, _, _, _⟩ :=
        pseudoRandomData_okE enc he n (reseedStep hashFn (clock t) s) hn hnM hseed hk1
      refine ⟨out, s', t + 1, ?_⟩
      unfold randomData
      rw [if_neg (by rw [hseed]; simp), if_pos hnM]
      simp only [hpr]
    · obtain ⟨out, s', t', hcl⟩ :=
        chunkLoop_ok hashFn enc clock fuel hhash he hb hf n.toNat (t + 1)
          (reseedStep hashFn (clock t) s) hseed hk1
      refine ⟨out, s', t', ?_⟩
      unfold randomData
      rw [if_neg (by rw [hseed]; simp), if_neg hnM]
      exact hcl
  · right
    have hfalse : (reseedStep hashFn (clock t) s).seeded = false := by
      cases hx : (reseedStep hashFn (clock t) s).seeded
      · rfl
      · exact absurd hx hseed
    unfold randomData
    rw [if_pos hfalse]

theorem claim9_witness :
    (∃ out s' t', randomData hash0 enc0 clock0 1 4 0 sCon = .ok (out, s', t')) ∨
    randomData hash0 enc0 clock0 1 4 0 sCon = .error .notSeeded :=
  claim9_only_notSeeded hash0 enc0 clock0 1 4 0 sCon (fun _ => rfl) (fun _ _ => rfl)
    (fun _ _ x hx => by rw [List.eq_of_mem_replicate hx]; norm_num)
    (by decide) (by decide) (by decide)

/-- C9 counterexample: on a constructed (hence seeded) instance, the call
`randomData(-1)` raises `InvalidArgument`, not `NotSeeded`, so `NotSeeded`
is not the only possible failure of an output request. -/
theorem claim9_counterexample :
    constructFortuna hash0 0 none (List.replicate 64 0) = .ok sCon ∧
    randomData hash0 enc0 clock0 1 (-1) 0 sCon = .error .invalidArgument ∧
    Err.invalidArgument ≠ Err.notSeeded :=
  ⟨by rfl, by rfl, by decide⟩

end Fortuna
